import Mathlib

/-!
Verification of the Saw Mill Lodge pool/spa controller
(`controller_02.h`, `version 3/controller_03.h`, `version 3/webserver_esp.cpp`).

Definitions are shallow embeddings of the C source.  Components whose
implementation is not part of the repository snapshot (the sequencer, the
button debouncer, `temp_change`) are modelled from the specification, as
marked in their doc comments.
-/

set_option maxRecDepth 10000

namespace PoolSpa

/-! ## Timing parameters (controller_03.h lines 139-163, non-debug branch) -/

/-- seconds of wait after heater off (controller_03.h line 143). -/
def DELAY_HEATER_OFF : Nat := 60

/-- seconds of wait for valve change (controller_03.h line 144). -/
def DELAY_VALVE_CHANGE : Nat := 45

/-- seconds of wait after pump off (controller_03.h line 146). -/
def DELAY_PUMP_OFF : Nat := 3

/-- seconds of wait after pump on (controller_03.h line 147). -/
def DELAY_PUMP_ON : Nat := 3

/-- debug-build value of DELAY_HEATER_OFF (controller_03.h line 140). -/
def DELAY_HEATER_OFF_DEBUG : Nat := 5

/-- debug-build value of DELAY_VALVE_CHANGE (controller_03.h line 141). -/
def DELAY_VALVE_CHANGE_DEBUG : Nat := 5

/-! ## Timeout-scheduler durations (controller_03.h lines 150-163) -/

/-- minutes to filter pool, by default. -/
def FILTER_POOL_TIME : Nat := 20

/-- minutes to filter spa, by default. -/
def FILTER_SPA_TIME : Nat := 10

/-- minutes before spa turns off (written `3*60` in the source). -/
def MODE_SPA_TIMEOUT : Nat := 3*60

/-- minutes before pool turns off (written `24*60` in the source). -/
def MODE_POOL_TIMEOUT : Nat := 24*60

/-- minutes before spa fill turns off. -/
def MODE_FILL_TIMEOUT : Nat := 5

/-- minutes before spa empty turns off. -/
def MODE_EMPTY_TIMEOUT : Nat := 5

/-- minutes before pool light turns off (written `3*60` in the source). -/
def POOL_LIGHT_TIMEOUT : Nat := 3*60

/-- minutes before spa aerator turns off (written `1*60` in the source). -/
def SPA_JETS_TIMEOUT : Nat := 1*60

/-- milliseconds for debounce delay. -/
def DEBOUNCE_DELAY : Nat := 50

/-! ## Temperature limits (controller_03.h lines 167-169) -/

def TEMP_MIN : Int := 60

def TEMP_MAX_POOL : Int := 92

def TEMP_MAX_SPA : Int := 105

/-- line-buffer bound (controller_03.h line 19). -/
def MAXLINE : Nat := 500

/-! ## Mode / configuration enumerations (controller_03.h lines 100-124) -/

/-- current global mode: "mode" (controller_03.h `enum global_mode_t`). -/
inductive global_mode_t where
  | MODE_IDLE
  | MODE_HEAT_SPA
  | MODE_HEAT_POOL
  | MODE_FILL_SPA
  | MODE_EMPTY_SPA
  | MODE_FILTER_POOL
  | MODE_FILTER_SPA
deriving DecidableEq, Repr, Fintype

/-- current heater setting: "heater_mode" (controller_03.h `enum heater_t`). -/
inductive heater_t where
  | HEATING_NONE
  | HEATING_SPA
  | HEATING_POOL
deriving DecidableEq, Repr, Fintype

/-- current valve configuration: "valve_config" (controller_03.h `enum vconfig_t`). -/
inductive vconfig_t where
  | VALVES_UNDEFINED
  | VALVES_HEAT_SPA
  | VALVES_HEAT_POOL
  | VALVES_FILL_SPA
  | VALVES_EMPTY_SPA
deriving DecidableEq, Repr, Fintype

/-- current pump status: "pump_status" (controller_03.h `enum pump_status_t`). -/
inductive pump_status_t where
  | PUMP_NONE
  | PUMP_SPA
  | PUMP_POOL
deriving DecidableEq, Repr, Fintype

/-- C enumeration value of each `global_mode_t` constant (declaration order). -/
def global_mode_value : global_mode_t → Nat
  | .MODE_IDLE => 0
  | .MODE_HEAT_SPA => 1
  | .MODE_HEAT_POOL => 2
  | .MODE_FILL_SPA => 3
  | .MODE_EMPTY_SPA => 4
  | .MODE_FILTER_POOL => 5
  | .MODE_FILTER_SPA => 6

/-- C enumeration value of each `vconfig_t` constant (declaration order). -/
def vconfig_value : vconfig_t → Nat
  | .VALVES_UNDEFINED => 0
  | .VALVES_HEAT_SPA => 1
  | .VALVES_HEAT_POOL => 2
  | .VALVES_FILL_SPA => 3
  | .VALVES_EMPTY_SPA => 4

/-- C enumeration value of each `heater_t` constant (declaration order). -/
def heater_value : heater_t → Nat
  | .HEATING_NONE => 0
  | .HEATING_SPA => 1
  | .HEATING_POOL => 2

/-- C enumeration value of each `pump_status_t` constant (declaration order). -/
def pump_status_value : pump_status_t → Nat
  | .PUMP_NONE => 0
  | .PUMP_SPA => 1
  | .PUMP_POOL => 2

/-! ## Relay bit masks, version 3 (controller_03.h lines 28-37):
the bits for the ADG728 drivers at 0x4c and 0x4d. -/

def POOL_PUMP_RELAY : Nat := 0b0000000100000000
def SPA_PUMP_RELAY : Nat := 0b0000001000000000
def SPA_JETS_PUMP_RELAY : Nat := 0b0000010000000000
def HEAT_POOL_RELAY : Nat := 0b0000100000000000
def HEAT_SPA_RELAY : Nat := 0b0001000000000000
def POOL_VALVE_RELAY : Nat := 0b0010000000000000
def SPA_VALVE_RELAY : Nat := 0b0100000000000000
def HEATER_VALVE_RELAY : Nat := 0b1000000000000000
def POOL_LIGHT_RELAY : Nat := 0b0000000000000001
def SPARE_RELAY : Nat := 0b0000000000000010

/-- the ten relay masks, in source declaration order (relay 1 .. relay 10). -/
def relay_masks : List Nat :=
  [POOL_PUMP_RELAY, SPA_PUMP_RELAY, SPA_JETS_PUMP_RELAY, HEAT_POOL_RELAY,
   HEAT_SPA_RELAY, POOL_VALVE_RELAY, SPA_VALVE_RELAY, HEATER_VALVE_RELAY,
   POOL_LIGHT_RELAY, SPARE_RELAY]

/-- setting one relay in the 10-bit relay word: `word |= mask`. -/
def relay_set (word mask : Nat) : Nat := word ||| mask

/-- clearing one relay in the 16-bit relay word: `word &= ~mask` on a uint16. -/
def relay_clear (word mask : Nat) : Nat := word &&& (0xffff ^^^ mask)

/-! ## Claims C2, C3: timing and timeout constants -/

/-- Claim C2: in the non-debug build configuration, the sequencer's step delays
equal the spec's values: the hold after commanding the heater off is 60 seconds,
the hold after a valve write is 45 seconds, and the pump-off and pump-on settle
holds are 3 seconds each. -/
theorem C2_step_delays :
    DELAY_HEATER_OFF = 60 ∧ DELAY_VALVE_CHANGE = 45 ∧
    DELAY_PUMP_OFF = 3 ∧ DELAY_PUMP_ON = 3 := by
  decide

/-- Claim C3: the timeout-scheduler durations, in minutes, equal exactly:
spa-heat 180 (`MODE_SPA_TIMEOUT = 3*60`), pool-heat 1440 (`24*60`), spa-fill 5,
spa-empty 5, pool-light 180 (`3*60`), spa-jets 60 (`1*60`), filter-pool run 20
and filter-spa run 10. -/
theorem C3_timeout_durations :
    MODE_SPA_TIMEOUT = 180 ∧ MODE_POOL_TIMEOUT = 1440 ∧
    MODE_FILL_TIMEOUT = 5 ∧ MODE_EMPTY_TIMEOUT = 5 ∧
    POOL_LIGHT_TIMEOUT = 180 ∧ SPA_JETS_TIMEOUT = 60 ∧
    FILTER_POOL_TIME = 20 ∧ FILTER_SPA_TIME = 10 := by
  decide

/-! ## Claim C6: enumeration shapes -/

/-- Claim C6: the core data-model enumerations have exactly the stated values:
`global_mode_t` has exactly 7 values with `MODE_IDLE` first (enumeration
value 0), `vconfig_t` has exactly 5 values including `VALVES_UNDEFINED`,
and `heater_t` and `pump_status_t` each have exactly 3 values whose first is
the NONE value.  The `_value` functions are injective, so the enumerators are
pairwise distinct. -/
theorem C6_enumerations :
    Fintype.card global_mode_t = 7 ∧
    Fintype.card vconfig_t = 5 ∧
    Fintype.card heater_t = 3 ∧
    Fintype.card pump_status_t = 3 ∧
    global_mode_value .MODE_IDLE = 0 ∧
    vconfig_value .VALVES_UNDEFINED = 0 ∧
    heater_value .HEATING_NONE = 0 ∧
    pump_status_value .PUMP_NONE = 0 ∧
    Function.Injective global_mode_value ∧
    Function.Injective vconfig_value ∧
    Function.Injective heater_value ∧
    Function.Injective pump_status_value := by
  refine ⟨rfl, rfl, rfl, rfl, rfl, rfl, rfl, rfl, ?_, ?_, ?_, ?_⟩ <;>
    intro a b h <;> cases a <;> cases b <;> first | rfl | exact absurd h (by decide)

/-! ## Claim C7: relay masks -/

/-- if the two masks share no bit, setting one leaves the other's bit alone. -/
lemma relay_set_other (x a b : Nat) (hab : a &&& b = 0) :
    relay_set x a &&& b = x &&& b := by
  apply Nat.eq_of_testBit_eq
  intro i
  have hbit : (a.testBit i && b.testBit i) = false := by
    have := congrArg (Nat.testBit · i) hab
    simpa only [Nat.testBit_and, Nat.zero_testBit] using this
  simp only [relay_set, Nat.testBit_and, Nat.testBit_or]
  cases hx : x.testBit i <;> cases ha : a.testBit i <;> cases hb : b.testBit i <;>
    simp_all

/-- if mask `b` survives `and`-ing with the clearing word of `a`, clearing `a`
leaves `b`'s bit alone. -/
lemma relay_clear_other (x a b : Nat) (hb : b &&& (0xffff ^^^ a) = b) :
    relay_clear x a &&& b = x &&& b := by
  apply Nat.eq_of_testBit_eq
  intro i
  have hbit := congrArg (Nat.testBit · i) hb
  simp only [Nat.testBit_and] at hbit
  simp only [relay_clear, Nat.testBit_and]
  cases hx : x.testBit i <;> cases hc : (0xffff ^^^ a).testBit i <;>
    cases hb2 : b.testBit i <;> simp_all

/-- Claim C7: the build defines exactly ten relay identifiers, and in the
version-3 build their bit masks are ten distinct single-bit values (powers
of two) that are pairwise disjoint, so a relay command (set or clear) to any
one relay cannot alter another relay's bit. -/
theorem C7_relay_masks :
    relay_masks.length = 10 ∧
    relay_masks.Nodup ∧
    relay_masks = [2^8, 2^9, 2^10, 2^11, 2^12, 2^13, 2^14, 2^15, 2^0, 2^1] ∧
    relay_masks.Pairwise (fun a b => a &&& b = 0) ∧
    (∀ x : Nat, ∀ a ∈ relay_masks, ∀ b ∈ relay_masks, a ≠ b →
      relay_set x a &&& b = x &&& b ∧ relay_clear x a &&& b = x &&& b) := by
  refine ⟨by decide, by decide, by decide, by decide, ?_⟩
  intro x a ha b hb hne
  have hdisj : a &&& b = 0 := by
    fin_cases ha <;> fin_cases hb <;> first | (exact absurd rfl hne) | decide
  have hkeep : b &&& (0xffff ^^^ a) = b := by
    fin_cases ha <;> fin_cases hb <;> first | (exact absurd rfl hne) | decide
  exact ⟨relay_set_other x a b hdisj, relay_clear_other x a b hkeep⟩

/-- witness for C7 at a concrete relay word and mask pair. -/
theorem C7_relay_masks_witness :
    relay_set 0b0000001000000011 POOL_PUMP_RELAY &&& SPA_PUMP_RELAY =
      0b0000001000000011 &&& SPA_PUMP_RELAY ∧
    relay_clear 0b0000001000000011 POOL_PUMP_RELAY &&& SPA_PUMP_RELAY =
      0b0000001000000011 &&& SPA_PUMP_RELAY :=
  C7_relay_masks.2.2.2.2 0b0000001000000011
    POOL_PUMP_RELAY (by decide) SPA_PUMP_RELAY (by decide) (by decide)

/-! ## Claim C1: the valve/pump/heater sequencer

The sequencer implementation is not part of the repository snapshot (only its
timing constants, in controller_03.h); it is modelled from the spec below. -/

/-- Modelled from the spec: a target configuration `(ValveConfig V, PumpStatus
P, HeaterMode H)` submitted to the sequencer (spec section 4.3). -/
structure target_t where
  v : vconfig_t
  p : pump_status_t
  h : heater_t
deriving DecidableEq, Repr

/-- Modelled from the spec: sequencer state.  The relay fields are the current
physical configuration; `target` is the pending request; the `t` fields count,
in seconds (one tick = one second), how long the heater has been off, the pump
has been off, the pump has been on, and the valve configuration has been
unchanged. -/
structure seq_state_t where
  valve : vconfig_t
  pump : pump_status_t
  heater : heater_t
  target : target_t
  tHeaterOff : Nat
  tPumpOff : Nat
  tPumpOn : Nat
  tValveStable : Nat
deriving DecidableEq, Repr

/-- Modelled from the spec: one delay-gated sequencer action (spec section 4.3,
steps 1-5, with the guards of the section-3 invariants).  At most one relay
field changes per tick, in the strict order: heater off, pump off, valve write
(only once the heater has been off for the heater-cooldown delay and the pump
off for the pump-off settle delay), pump on (only once the valve has been
stable for the valve-settle delay), heater on (only once the pump has also
been on for the pump-on settle delay). -/
def seq_act (s : seq_state_t) : seq_state_t :=
  if s.heater ≠ .HEATING_NONE ∧ (s.target.h ≠ s.heater ∨ s.target.v ≠ s.valve) then
    { s with heater := .HEATING_NONE }
  else if s.pump ≠ .PUMP_NONE ∧ (s.target.p ≠ s.pump ∨ s.target.v ≠ s.valve) then
    { s with pump := .PUMP_NONE }
  else if s.valve ≠ s.target.v ∧ s.heater = .HEATING_NONE ∧
          DELAY_HEATER_OFF ≤ s.tHeaterOff ∧ s.pump = .PUMP_NONE ∧
          DELAY_PUMP_OFF ≤ s.tPumpOff then
    { s with valve := s.target.v }
  else if s.pump ≠ s.target.p ∧ s.target.p ≠ .PUMP_NONE ∧ s.valve = s.target.v ∧
          DELAY_VALVE_CHANGE ≤ s.tValveStable then
    { s with pump := s.target.p }
  else if s.heater ≠ s.target.h ∧ s.target.h ≠ .HEATING_NONE ∧
          s.valve = s.target.v ∧ DELAY_VALVE_CHANGE ≤ s.tValveStable ∧
          s.pump = s.target.p ∧ s.pump ≠ .PUMP_NONE ∧
          DELAY_PUMP_ON ≤ s.tPumpOn then
    { s with heater := s.target.h }
  else s

/-- Modelled from the spec: one observable tick (one second).  A newly arrived
request replaces the pending target (most-recent-wins, spec section 4.4), then
the sequencer performs at most one action, then the history counters advance. -/
def seq_step (s : seq_state_t) (req : Option target_t) : seq_state_t :=
  let s1 := match req with
    | some t0 => { s with target := t0 }
    | none => s
  let s2 := seq_act s1
  { s2 with
    tHeaterOff := if s2.heater = .HEATING_NONE then s2.tHeaterOff + 1 else 0,
    tPumpOff := if s2.pump = .PUMP_NONE then s2.tPumpOff + 1 else 0,
    tPumpOn := if s2.pump ≠ .PUMP_NONE then s2.tPumpOn + 1 else 0,
    tValveStable := if s2.valve = s.valve then s2.tValveStable + 1 else 0 }

/-- Modelled from the spec: the all-off restart state (spec section 4.3: on
power loss, relays default to the all-off configuration; the equipment has
been quiescent since before the restart). -/
def seq_init : seq_state_t :=
  { valve := .VALVES_UNDEFINED, pump := .PUMP_NONE, heater := .HEATING_NONE,
    target := { v := .VALVES_UNDEFINED, p := .PUMP_NONE, h := .HEATING_NONE },
    tHeaterOff := DELAY_HEATER_OFF, tPumpOff := DELAY_PUMP_OFF,
    tPumpOn := 0, tValveStable := DELAY_VALVE_CHANGE }

/-- the run of the sequencer on an input sequence of requests. -/
def seq_run (u : Nat → Option target_t) : Nat → seq_state_t
  | 0 => seq_init
  | t + 1 => seq_step (seq_run u t) (u t)

lemma seq_act_timers (s : seq_state_t) :
    (seq_act s).tHeaterOff = s.tHeaterOff ∧ (seq_act s).tPumpOff = s.tPumpOff ∧
    (seq_act s).tPumpOn = s.tPumpOn ∧ (seq_act s).tValveStable = s.tValveStable := by
  unfold seq_act
  split_ifs <;> exact ⟨rfl, rfl, rfl, rfl⟩

/-- if the sequencer action changes the valve, its guard held: the heater was
off and cooled down, the pump was off and settled. -/
lemma seq_act_valve_guard {s : seq_state_t} (h : (seq_act s).valve ≠ s.valve) :
    s.heater = .HEATING_NONE ∧ DELAY_HEATER_OFF ≤ s.tHeaterOff ∧
    s.pump = .PUMP_NONE ∧ DELAY_PUMP_OFF ≤ s.tPumpOff := by
  unfold seq_act at h
  split_ifs at h with h1 h2 h3 h4 h5
  · exact absurd rfl h
  · exact absurd rfl h
  · exact ⟨h3.2.1, h3.2.2.1, h3.2.2.2.1, h3.2.2.2.2⟩
  · exact absurd rfl h
  · exact absurd rfl h
  · exact absurd rfl h

/-- if the sequencer action turns the heater from off to on, its guard held:
the valve had been stable for the valve-settle delay and the pump had been on
for the pump-on settle delay. -/
lemma seq_act_heater_guard {s : seq_state_t} (hoff : s.heater = .HEATING_NONE)
    (h : (seq_act s).heater ≠ .HEATING_NONE) :
    DELAY_VALVE_CHANGE ≤ s.tValveStable ∧ s.pump ≠ .PUMP_NONE ∧
    DELAY_PUMP_ON ≤ s.tPumpOn := by
  unfold seq_act at h
  split_ifs at h with h1 h2 h3 h4 h5
  · exact absurd rfl h
  · exact absurd hoff h
  · exact absurd hoff h
  · exact absurd hoff h
  · exact ⟨h5.2.2.2.1, h5.2.2.2.2.2.1, h5.2.2.2.2.2.2⟩
  · exact absurd hoff h

lemma seq_step_fields (s : seq_state_t) (req : Option target_t) :
    ∃ s1 : seq_state_t, s1.valve = s.valve ∧ s1.pump = s.pump ∧
      s1.heater = s.heater ∧ s1.tHeaterOff = s.tHeaterOff ∧
      s1.tPumpOff = s.tPumpOff ∧ s1.tPumpOn = s.tPumpOn ∧
      s1.tValveStable = s.tValveStable ∧
      (seq_step s req).valve = (seq_act s1).valve ∧
      (seq_step s req).pump = (seq_act s1).pump ∧
      (seq_step s req).heater = (seq_act s1).heater ∧
      (seq_step s req).tHeaterOff =
        (if (seq_act s1).heater = .HEATING_NONE then s.tHeaterOff + 1 else 0) ∧
      (seq_step s req).tPumpOff =
        (if (seq_act s1).pump = .PUMP_NONE then s.tPumpOff + 1 else 0) ∧
      (seq_step s req).tPumpOn =
        (if (seq_act s1).pump ≠ .PUMP_NONE then s.tPumpOn + 1 else 0) ∧
      (seq_step s req).tValveStable =
        (if (seq_act s1).valve = s.valve then s.tValveStable + 1 else 0) := by
  cases req with
  | none =>
      refine ⟨s, rfl, rfl, rfl, rfl, rfl, rfl, rfl, rfl, rfl, rfl, ?_, ?_, ?_, ?_⟩ <;>
        simp [seq_step, (seq_act_timers s).1, (seq_act_timers s).2.1,
          (seq_act_timers s).2.2.1, (seq_act_timers s).2.2.2]
  | some t0 =>
      refine ⟨{ s with target := t0 }, rfl, rfl, rfl, rfl, rfl, rfl, rfl,
        rfl, rfl, rfl, ?_, ?_, ?_, ?_⟩ <;>
        simp [seq_step, (seq_act_timers { s with target := t0 }).1,
          (seq_act_timers { s with target := t0 }).2.1,
          (seq_act_timers { s with target := t0 }).2.2.1,
          (seq_act_timers { s with target := t0 }).2.2.2]

/-- the pump-off counter undercounts the streak of past instants with the
pump off. -/
lemma seq_run_pumpOff_streak (u : Nat → Option target_t) :
    ∀ t, ∀ k < (seq_run u t).tPumpOff, (seq_run u (t - k)).pump = .PUMP_NONE := by
  intro t
  induction t with
  | zero =>
      intro k _
      simp [seq_run, seq_init]
  | succ t ih =>
      intro k hk
      obtain ⟨s1, hv, hp, hh, hto, hpo, hpn, hvs, hSv, hSp, hSh, hTho, hTpo,
        hTpn, hTvs⟩ := seq_step_fields (seq_run u t) (u t)
      have hrun : seq_run u (t + 1) = seq_step (seq_run u t) (u t) := rfl
      rw [hrun, hTpo] at hk
      by_cases hpump : (seq_act s1).pump = .PUMP_NONE
      · rw [if_pos hpump] at hk
        match k with
        | 0 => simpa [hrun, hSp] using hpump
        | j + 1 =>
            have hj : j < (seq_run u t).tPumpOff := by omega
            have := ih j hj
            simpa [Nat.succ_sub_succ] using this
      · rw [if_neg hpump] at hk
        omega

/-- the heater-off counter undercounts the streak of past instants with the
heater off. -/
lemma seq_run_heaterOff_streak (u : Nat → Option target_t) :
    ∀ t, ∀ k < (seq_run u t).tHeaterOff,
      (seq_run u (t - k)).heater = .HEATING_NONE := by
  intro t
  induction t with
  | zero =>
      intro k _
      simp [seq_run, seq_init]
  | succ t ih =>
      intro k hk
      obtain ⟨s1, hv, hp, hh, hto, hpo, hpn, hvs, hSv, hSp, hSh, hTho, hTpo,
        hTpn, hTvs⟩ := seq_step_fields (seq_run u t) (u t)
      have hrun : seq_run u (t + 1) = seq_step (seq_run u t) (u t) := rfl
      rw [hrun, hTho] at hk
      by_cases hheat : (seq_act s1).heater = .HEATING_NONE
      · rw [if_pos hheat] at hk
        match k with
        | 0 => simpa [hrun, hSh] using hheat
        | j + 1 =>
            have hj : j < (seq_run u t).tHeaterOff := by omega
            have := ih j hj
            simpa [Nat.succ_sub_succ] using this
      · rw [if_neg hheat] at hk
        omega

/-- the pump-on counter undercounts the streak of past instants with the
pump on. -/
lemma seq_run_pumpOn_streak (u : Nat → Option target_t) :
    ∀ t, ∀ k < (seq_run u t).tPumpOn, (seq_run u (t - k)).pump ≠ .PUMP_NONE := by
  intro t
  induction t with
  | zero =>
      intro k hk
      simp [seq_run, seq_init] at hk
  | succ t ih =>
      intro k hk
      obtain ⟨s1, hv, hp, hh, hto, hpo, hpn, hvs, hSv, hSp, hSh, hTho, hTpo,
        hTpn, hTvs⟩ := seq_step_fields (seq_run u t) (u t)
      have hrun : seq_run u (t + 1) = seq_step (seq_run u t) (u t) := rfl
      rw [hrun, hTpn] at hk
      by_cases hpump : (seq_act s1).pump ≠ .PUMP_NONE
      · rw [if_pos hpump] at hk
        match k with
        | 0 => simpa [hrun, hSp] using hpump
        | j + 1 =>
            have hj : j < (seq_run u t).tPumpOn := by omega
            have := ih j hj
            simpa [Nat.succ_sub_succ] using this
      · rw [if_neg hpump] at hk
        omega

/-- the valve-stability counter undercounts the streak of past instants with
the valve configuration unchanged. -/
lemma seq_run_valveStable_streak (u : Nat → Option target_t) :
    ∀ t, ∀ k < (seq_run u t).tValveStable,
      (seq_run u (t - k)).valve = (seq_run u t).valve := by
  intro t
  induction t with
  | zero =>
      intro k _
      simp
  | succ t ih =>
      intro k hk
      obtain ⟨s1, hv, hp, hh, hto, hpo, hpn, hvs, hSv, hSp, hSh, hTho, hTpo,
        hTpn, hTvs⟩ := seq_step_fields (seq_run u t) (u t)
      have hrun : seq_run u (t + 1) = seq_step (seq_run u t) (u t) := rfl
      rw [hrun, hTvs] at hk
      by_cases hval : (seq_act s1).valve = (seq_run u t).valve
      · rw [if_pos hval] at hk
        match k with
        | 0 => simp
        | j + 1 =>
            have hj : j < (seq_run u t).tValveStable := by omega
            have := ih j hj
            rw [Nat.succ_sub_succ, this, hrun, hSv, hval]
      · rw [if_neg hval] at hk
        omega

/-- Claim C1: for every sequence of inputs driving the sequencer, at every
observable instant the three sequencing invariants hold: the valve
configuration changes only after the pump relay has been off for at least the
pump-off settle time and (protecting the heater's water path) only after the
heater has been off for at least the heater-cooldown time; and a heater relay
turns on only after the valve configuration has been stable for at least the
valve-settle time and the pump has been on for at least the pump-on settle
time. -/
theorem C1_sequencing_invariants (u : Nat → Option target_t) (t : Nat) :
    ((seq_run u (t + 1)).valve ≠ (seq_run u t).valve →
      (∀ k < DELAY_PUMP_OFF, (seq_run u (t - k)).pump = .PUMP_NONE) ∧
      (∀ k < DELAY_HEATER_OFF, (seq_run u (t - k)).heater = .HEATING_NONE)) ∧
    ((seq_run u t).heater = .HEATING_NONE →
      (seq_run u (t + 1)).heater ≠ .HEATING_NONE →
      (∀ k < DELAY_VALVE_CHANGE,
        (seq_run u (t - k)).valve = (seq_run u t).valve) ∧
      (∀ k < DELAY_PUMP_ON, (seq_run u (t - k)).pump ≠ .PUMP_NONE)) := by
  obtain ⟨s1, hv, hp, hh, hto, hpo, hpn, hvs, hSv, hSp, hSh, hTho, hTpo,
    hTpn, hTvs⟩ := seq_step_fields (seq_run u t) (u t)
  have hrun : seq_run u (t + 1) = seq_step (seq_run u t) (u t) := rfl
  constructor
  · intro hvalve
    rw [hrun, hSv, ← hv] at hvalve
    obtain ⟨ghe, ghto, gpu, gpo⟩ := seq_act_valve_guard hvalve
    constructor
    · intro k hk
      exact seq_run_pumpOff_streak u t k (by rw [hpo] at gpo; omega)
    · intro k hk
      exact seq_run_heaterOff_streak u t k (by rw [hto] at ghto; omega)
  · intro hoff hon
    rw [hrun, hSh] at hon
    have hoff1 : s1.heater = .HEATING_NONE := by rw [hh]; exact hoff
    obtain ⟨gvs, gpu, gpn⟩ := seq_act_heater_guard hoff1 hon
    constructor
    · intro k hk
      exact seq_run_valveStable_streak u t k (by rw [hvs] at gvs; omega)
    · intro k hk
      exact seq_run_pumpOn_streak u t k (by rw [hpn] at gpn; omega)

/-- a concrete input sequence: a single heat-spa request at tick 0. -/
def seq_input0 : Nat → Option target_t := fun t =>
  if t = 0 then
    some { v := .VALVES_HEAT_SPA, p := .PUMP_SPA, h := .HEATING_SPA }
  else none

/-- witness for C1: on the single heat-spa request, the valve changes at
tick 0 (with the settle facts delivered by the theorem) and the heater turns
on at tick 49 (with the stability facts delivered by the theorem). -/
theorem C1_sequencing_invariants_witness :
    ((seq_run seq_input0 1).valve ≠ (seq_run seq_input0 0).valve ∧
      (∀ k < DELAY_PUMP_OFF, (seq_run seq_input0 (0 - k)).pump = .PUMP_NONE) ∧
      (∀ k < DELAY_HEATER_OFF,
        (seq_run seq_input0 (0 - k)).heater = .HEATING_NONE)) ∧
    ((seq_run seq_input0 49).heater = .HEATING_NONE ∧
      (seq_run seq_input0 50).heater ≠ .HEATING_NONE ∧
      (∀ k < DELAY_VALVE_CHANGE,
        (seq_run seq_input0 (49 - k)).valve = (seq_run seq_input0 49).valve) ∧
      (∀ k < DELAY_PUMP_ON, (seq_run seq_input0 (49 - k)).pump ≠ .PUMP_NONE)) := by
  have h1 := (C1_sequencing_invariants seq_input0 0).1 (by decide)
  have h2 := (C1_sequencing_invariants seq_input0 49).2 (by decide) (by decide)
  exact ⟨⟨by decide, h1.1, h1.2⟩, ⟨by decide, by decide, h2.1, h2.2⟩⟩

/-! ## Claim C4: the button debouncer

The debounce implementation is not part of the repository snapshot (only the
constant `DEBOUNCE_DELAY`, controller_03.h line 163); it is modelled from the
spec below. -/

/-- Modelled from the spec: debounce state for one button line.  `lastRaw` is
the raw level at the previous sample, `stable` counts consecutive samples
(one per millisecond) at which the raw level has not changed. -/
structure deb_state_t where
  debounced : Bool
  lastRaw : Bool
  stable : Nat
deriving DecidableEq, Repr

/-- Modelled from the spec: one debounce sample (spec section 4.1).  The
stability counter resets on any raw transition; the debounced state takes the
raw level only once the raw level has been stable for the whole
`DEBOUNCE_DELAY` window. -/
def deb_step (s : deb_state_t) (raw : Bool) : deb_state_t :=
  let stable1 := if raw = s.lastRaw then s.stable + 1 else 0
  { debounced := if DEBOUNCE_DELAY ≤ stable1 then raw else s.debounced,
    lastRaw := raw,
    stable := stable1 }

/-- Modelled from the spec: boot state of the debouncer, line idle low. -/
def deb_init : deb_state_t := { debounced := false, lastRaw := false, stable := 0 }

/-- the run of the debouncer on a raw sample sequence (one sample per
millisecond). -/
def deb_run (raw : Nat → Bool) : Nat → deb_state_t
  | 0 => deb_init
  | t + 1 => deb_step (deb_run raw t) (raw t)

/-- the debounced state shows an edge at tick `t`. -/
abbrev deb_edge (raw : Nat → Bool) (t : Nat) : Prop :=
  (deb_run raw (t + 1)).debounced ≠ (deb_run raw t).debounced

/-- the stability counter undercounts the streak of equal raw samples. -/
lemma deb_run_streak (raw : Nat → Bool) :
    ∀ t, ∀ j < (deb_run raw t).stable,
      raw (t - 1 - j) = (deb_run raw t).lastRaw := by
  intro t
  induction t with
  | zero => intro j hj; simp [deb_run, deb_init] at hj
  | succ t ih =>
      intro j hj
      have hrun : deb_run raw (t + 1) = deb_step (deb_run raw t) (raw t) := rfl
      rw [hrun] at hj ⊢
      simp only [deb_step] at hj ⊢
      by_cases heq : raw t = (deb_run raw t).lastRaw
      · rw [if_pos heq] at hj
        match j with
        | 0 => simp
        | i + 1 =>
            have hi : i < (deb_run raw t).stable := by omega
            have := ih i hi
            have hidx : t + 1 - 1 - (i + 1) = t - 1 - i := by omega
            rw [hidx]
            rw [this, heq]
      · rw [if_neg heq] at hj
        omega

/-- at an edge, the previous sample equals the current one and the counter had
already reached the window. -/
lemma deb_edge_facts {raw : Nat → Bool} {t : Nat} (h : deb_edge raw t) :
    raw t = (deb_run raw t).lastRaw ∧
    DEBOUNCE_DELAY ≤ (deb_run raw t).stable + 1 ∧
    (deb_run raw (t + 1)).debounced = raw t := by
  have hrun : deb_run raw (t + 1) = deb_step (deb_run raw t) (raw t) := rfl
  simp only [deb_edge, hrun] at h ⊢
  simp only [deb_step] at h ⊢
  by_cases heq : raw t = (deb_run raw t).lastRaw
  · rw [if_pos heq] at h ⊢
    by_cases hth : DEBOUNCE_DELAY ≤ (deb_run raw t).stable + 1
    · exact ⟨heq, hth, if_pos hth⟩
    · rw [if_neg hth] at h
      exact absurd rfl h
  · rw [if_neg heq] at h ⊢
    have : ¬ DEBOUNCE_DELAY ≤ 0 := by decide
    rw [if_neg this] at h
    exact absurd rfl h

/-- the debounced level after any tick is either unchanged or the raw sample. -/
lemma deb_step_cases (s : deb_state_t) (raw : Bool) :
    (deb_step s raw).debounced = s.debounced ∨ (deb_step s raw).debounced = raw := by
  simp only [deb_step]
  by_cases hth : DEBOUNCE_DELAY ≤ (if raw = s.lastRaw then s.stable + 1 else 0)
  · exact Or.inr (if_pos hth)
  · exact Or.inl (if_neg hth)

/-- stability at an edge: the raw level was constant over the whole debounce
window ending at the edge. -/
lemma deb_edge_stability (raw : Nat → Bool) (t : Nat) (h : deb_edge raw t) :
    ∀ j < DEBOUNCE_DELAY, raw (t - j) = raw t := by
  intro j hj
  obtain ⟨heq, hth, _⟩ := deb_edge_facts h
  match j with
  | 0 => rfl
  | i + 1 =>
      have hi : i < (deb_run raw t).stable := by
        simp only [DEBOUNCE_DELAY] at hj hth; omega
      have := deb_run_streak raw t i hi
      have hidx : t - (i + 1) = t - 1 - i := by omega
      rw [hidx, this, ← heq]

instance deb_edge_dec (raw : Nat → Bool) (t : Nat) : Decidable (deb_edge raw t) :=
  inferInstanceAs (Decidable (_ ≠ _))

/-- with all raw transitions confined to the window `[T, T + DEBOUNCE_DELAY)`
and the line initially low, the raw level is low up to `T`. -/
lemma raw_low_before {raw : Nat → Bool} {T : Nat}
    (hconf : ∀ t, raw (t + 1) ≠ raw t → T ≤ t ∧ t < T + DEBOUNCE_DELAY)
    (h0 : raw 0 = false) : ∀ t ≤ T, raw t = false := by
  intro t
  induction t with
  | zero => intro _; exact h0
  | succ t ih =>
      intro ht
      by_cases heq : raw (t + 1) = raw t
      · rw [heq]; exact ih (by omega)
      · have := hconf t heq
        omega

/-- with all raw transitions confined to the window, the raw level is constant
from the end of the window on. -/
lemma raw_const_after {raw : Nat → Bool} {T : Nat}
    (hconf : ∀ t, raw (t + 1) ≠ raw t → T ≤ t ∧ t < T + DEBOUNCE_DELAY) :
    ∀ t, T + DEBOUNCE_DELAY ≤ t → raw t = raw (T + DEBOUNCE_DELAY) := by
  intro t ht
  induction t, ht using Nat.le_induction with
  | base => rfl
  | succ t ht ih =>
      by_cases heq : raw (t + 1) = raw t
      · rw [heq]; exact ih
      · have := hconf t heq
        omega

/-- while the raw level is still low, so is the debounced level. -/
lemma deb_low_before {raw : Nat → Bool} {T : Nat}
    (hconf : ∀ t, raw (t + 1) ≠ raw t → T ≤ t ∧ t < T + DEBOUNCE_DELAY)
    (h0 : raw 0 = false) : ∀ t ≤ T + 1, (deb_run raw t).debounced = false := by
  intro t
  induction t with
  | zero => intro _; rfl
  | succ t ih =>
      intro ht
      have hcase := deb_step_cases (deb_run raw t) (raw t)
      have hrun : deb_run raw (t + 1) = deb_step (deb_run raw t) (raw t) := rfl
      rw [hrun]
      rcases hcase with hsame | hraw
      · rw [hsame]; exact ih (by omega)
      · rw [hraw]; exact raw_low_before hconf h0 t (by omega)

/-- a burst of raw transitions confined to one debounce window cannot produce
two distinct debounced edges. -/
lemma deb_no_two_edges {raw : Nat → Bool} {T : Nat}
    (hconf : ∀ t, raw (t + 1) ≠ raw t → T ≤ t ∧ t < T + DEBOUNCE_DELAY)
    (h0 : raw 0 = false) {a b : Nat} (hab : a < b)
    (ha : deb_edge raw a) (hb : deb_edge raw b) : False := by
  have hex : ∃ e, deb_edge raw e := ⟨a, ha⟩
  set m := Nat.find hex with hm
  have hm_edge : deb_edge raw m := Nat.find_spec hex
  have hm_min : ∀ x, x < m → ¬ deb_edge raw x := fun x hx => Nat.find_min hex hx
  have hm_le_a : m ≤ a := Nat.find_min' hex ha
  -- the debounced level is still low at the first edge
  have hdeb_low : ∀ x, x ≤ m → (deb_run raw x).debounced = false := by
    intro x
    induction x with
    | zero => intro _; rfl
    | succ x ih =>
        intro hx
        have hne : ¬ deb_edge raw x := hm_min x (by omega)
        have heq : (deb_run raw (x + 1)).debounced = (deb_run raw x).debounced := by
          by_contra hcon
          exact hne hcon
        rw [heq]; exact ih (by omega)
  -- the first edge raises the debounced level
  obtain ⟨_, _, hmval⟩ := deb_edge_facts hm_edge
  have hraw_m : raw m = true := by
    have hne : (deb_run raw (m + 1)).debounced ≠ (deb_run raw m).debounced := hm_edge
    rw [hmval, hdeb_low m (le_refl m)] at hne
    cases h : raw m with
    | false => rw [h] at hne; exact absurd rfl hne
    | true => rfl
  -- the first edge lies past the window start
  have hT_lt_m : T < m := by
    by_contra hle
    have h1 : raw m = false := raw_low_before hconf h0 m (by omega)
    rw [h1] at hraw_m
    exact Bool.false_ne_true hraw_m
  -- in fact past the window end
  have hwin_le_m : T + DEBOUNCE_DELAY ≤ m := by
    by_contra hlt
    have hstab := deb_edge_stability raw m hm_edge (m - T)
      (by simp only [DEBOUNCE_DELAY] at hlt ⊢; omega)
    have hidx : m - (m - T) = T := by omega
    rw [hidx, hraw_m] at hstab
    have h1 : raw T = false := raw_low_before hconf h0 T (le_refl T)
    rw [h1] at hstab
    exact Bool.false_ne_true hstab
  -- from the end of the window on, the raw level is high
  have hraw_high : ∀ t, T + DEBOUNCE_DELAY ≤ t → raw t = true := by
    intro t ht
    rw [raw_const_after hconf t ht, ← raw_const_after hconf m hwin_le_m, hraw_m]
  -- so the debounced level stays high after the first edge
  have hdeb_high : ∀ x, m + 1 ≤ x → (deb_run raw x).debounced = true := by
    intro x hx
    induction x, hx using Nat.le_induction with
    | base => rw [hmval, hraw_m]
    | succ x hx ih =>
        have hcase := deb_step_cases (deb_run raw x) (raw x)
        have hrun : deb_run raw (x + 1) = deb_step (deb_run raw x) (raw x) := rfl
        rw [hrun]
        rcases hcase with hsame | hraw
        · rw [hsame]; exact ih
        · rw [hraw]; exact hraw_high x (by omega)
  -- a second edge cannot exist
  have hb1 : (deb_run raw (b + 1)).debounced = true := hdeb_high (b + 1) (by omega)
  have hb0 : (deb_run raw b).debounced = true := hdeb_high b (by omega)
  have hbne : (deb_run raw (b + 1)).debounced ≠ (deb_run raw b).debounced := hb
  rw [hb1, hb0] at hbne
  exact hbne rfl

/-- Claim C4: for every button line, the debounced state changes only after
the raw level has remained stable for the whole 50 ms debounce window (one
sample per millisecond), and any burst of raw transitions confined to one
50 ms window produces at most one debounced edge. -/
theorem C4_debounce :
    (∀ (raw : Nat → Bool) (t : Nat), deb_edge raw t →
      ∀ j < DEBOUNCE_DELAY, raw (t - j) = raw t) ∧
    (∀ (raw : Nat → Bool) (T : Nat),
      (∀ t, raw (t + 1) ≠ raw t → T ≤ t ∧ t < T + DEBOUNCE_DELAY) →
      raw 0 = false →
      ∀ e1 e2, deb_edge raw e1 → deb_edge raw e2 → e1 = e2) := by
  refine ⟨deb_edge_stability, ?_⟩
  intro raw T hconf h0 e1 e2 h1 h2
  rcases Nat.lt_trichotomy e1 e2 with hlt | heq | hgt
  · exact absurd (deb_no_two_edges hconf h0 hlt h1 h2) not_false
  · exact heq
  · exact absurd (deb_no_two_edges hconf h0 hgt h2 h1) not_false

/-- a concrete raw sample sequence: one clean press, low before tick 10, high
from tick 10 on (its only transition is at tick 9). -/
def raw_press : Nat → Bool := fun t => decide (10 ≤ t)

/-- witness for C4: on the clean press the debounced edge appears at tick 60,
the raw level was stable over the window before it, and it is the only edge. -/
theorem C4_debounce_witness :
    deb_edge raw_press 60 ∧
    (∀ j < DEBOUNCE_DELAY, raw_press (60 - j) = raw_press 60) ∧
    (∀ e, deb_edge raw_press e → e = 60) := by
  have hconf : ∀ t, raw_press (t + 1) ≠ raw_press t →
      9 ≤ t ∧ t < 9 + DEBOUNCE_DELAY := by
    intro t h
    have ht : t = 9 := by
      by_contra hne
      apply h
      simp only [raw_press]
      rw [decide_eq_decide]
      constructor <;> intro <;> omega
    rw [ht]
    exact ⟨by omega, by simp [DEBOUNCE_DELAY]⟩
  have h0 : raw_press 0 = false := by decide
  exact ⟨by decide, C4_debounce.1 raw_press 60 (by decide),
    fun e he => C4_debounce.2 raw_press 9 hconf h0 e 60 he (by decide)⟩

/-! ## Claim C5: the temperature setpoint controller

`temp_change` is only declared in controller_03.h (line 177); its
implementation is not part of the repository snapshot and is modelled from the
spec below. -/

/-- Modelled from the spec: the upper setpoint bound of the accessory
currently being heated (`TEMP_MAX_POOL` for the pool, `TEMP_MAX_SPA` for the
spa; the spec does not exercise the no-heating case, which keeps the spa
bound). -/
def temp_limit : heater_t → Int
  | .HEATING_POOL => TEMP_MAX_POOL
  | .HEATING_SPA => TEMP_MAX_SPA
  | .HEATING_NONE => TEMP_MAX_SPA

/-- Modelled from the spec: one encoder tick adjusts the active target
temperature by 1 degree in the tick's direction, clamped to
`[TEMP_MIN, temp_limit]` for the accessory currently being heated. -/
def temp_change (h : heater_t) (direction : Int) (target : Int) : Int :=
  let nt := target + direction
  if nt < TEMP_MIN then TEMP_MIN
  else if temp_limit h < nt then temp_limit h
  else nt

/-- `n` successive +1 encoder ticks starting from `start`. -/
def temp_ticks (h : heater_t) (start : Int) : Nat → Int
  | 0 => start
  | n + 1 => temp_change h 1 (temp_ticks h start n)

/-- Claim C5: each encoder tick changes the active setpoint by exactly 1
degree, clamped to the bounds of the accessory currently being heated
([60, 92] for the pool, [60, 105] for the spa); 25 successive +1 ticks while
heating the pool from a setpoint of 80 reach exactly 92 and never exceed 92
at any intermediate step. -/
theorem C5_setpoint_ticks :
    (∀ t : Int, TEMP_MIN ≤ t → t < TEMP_MAX_POOL →
      temp_change .HEATING_POOL 1 t = t + 1) ∧
    (∀ t : Int, TEMP_MIN < t → t ≤ TEMP_MAX_POOL →
      temp_change .HEATING_POOL (-1) t = t - 1) ∧
    (∀ t : Int, TEMP_MIN ≤ temp_change .HEATING_POOL 1 t ∧
      temp_change .HEATING_POOL 1 t ≤ TEMP_MAX_POOL ∨
      TEMP_MAX_POOL < t - 1) ∧
    (∀ t : Int, TEMP_MIN ≤ t → t < TEMP_MAX_SPA →
      temp_change .HEATING_SPA 1 t = t + 1) ∧
    (∀ t : Int, t ≤ TEMP_MAX_SPA →
      TEMP_MIN ≤ temp_change .HEATING_SPA 1 t ∧
      temp_change .HEATING_SPA 1 t ≤ TEMP_MAX_SPA) ∧
    (∀ n ≤ 25, temp_ticks .HEATING_POOL 80 n ≤ TEMP_MAX_POOL) ∧
    temp_ticks .HEATING_POOL 80 25 = 92 := by
  refine ⟨?_, ?_, ?_, ?_, ?_, by decide, by decide⟩ <;>
    intro t <;> simp only [temp_change, temp_limit, TEMP_MIN, TEMP_MAX_POOL,
      TEMP_MAX_SPA] <;> split_ifs <;> omega

/-- witness for C5 at concrete setpoints: an unclamped tick at 80, a clamped
tick at 92, and the 25-tick scenario. -/
theorem C5_setpoint_ticks_witness :
    temp_change .HEATING_POOL 1 80 = 81 ∧
    (TEMP_MIN ≤ temp_change .HEATING_POOL 1 92 ∧
      temp_change .HEATING_POOL 1 92 ≤ TEMP_MAX_POOL ∨ TEMP_MAX_POOL < 92 - 1) ∧
    temp_ticks .HEATING_POOL 80 25 = 92 := by
  refine ⟨?_, C5_setpoint_ticks.2.2.1 92, C5_setpoint_ticks.2.2.2.2.2.2⟩
  have h := C5_setpoint_ticks.1 80 (by decide) (by decide)
  rw [h]
  decide

/-! ## Claim C10: `expand_arrows_and_blanks` buffer safety
(webserver_esp.cpp lines 233-254) -/

/-- per-character output width of the expansion loop, following the source's
if-chain: our four arrow glyphs become 7-character HTML arrow entities
(`sizeof(HTML_xARROW) - 1 = 7`), a blank becomes the 6 characters of
`&nbsp;`, the blinking-cursor character becomes the 8 characters of
`<u>%c</u>`, and any other character is copied as is.  `cursorHere` stands
for `lcd_cursorblinking && row == lcdrow && col == lcdcol`. -/
def expand_width (cursorHere : Bool) (c : Char) : Nat :=
  if c = Char.ofNat 0x7f then 7
  else if c = Char.ofNat 0x02 then 7
  else if c = Char.ofNat 0x7e then 7
  else if c = Char.ofNat 0x01 then 7
  else if c = ' ' then 6
  else if cursorHere then 8
  else 1

/-- offset, from the store position, of the highest byte touched while
expanding one character: `strcpy` of a 7-character entity also stores its
terminating NUL at offset 7, `strcpy` of `&nbsp;` stores the NUL at offset 6,
`sprintf` of `<u>%c</u>` stores the NUL at offset 8, and a plain character
store touches only the store position itself. -/
def expand_touch (cursorHere : Bool) (c : Char) : Nat :=
  if c = Char.ofNat 0x7f then 7
  else if c = Char.ofNat 0x02 then 7
  else if c = Char.ofNat 0x7e then 7
  else if c = Char.ofNat 0x01 then 7
  else if c = ' ' then 6
  else if cursorHere then 8
  else 0

/-- the expansion loop of `expand_arrows_and_blanks`: walks the row until its
NUL or until the guard `dst - outmsg < MAXLINE - 15` fails, and returns the
final store offset together with the highest byte offset stored so far. -/
def expand_loop (cursorAt : Nat → Bool) :
    List Char → Nat → Nat → Nat → Nat × Nat
  | [], _, dst, high => (dst, high)
  | c :: rest, col, dst, high =>
      if dst < MAXLINE - 15 then
        expand_loop cursorAt rest (col + 1)
          (dst + expand_width (cursorAt col) c)
          (max high (dst + expand_touch (cursorAt col) c))
      else (dst, high)

/-- `expand_arrows_and_blanks` viewed as its store footprint: the loop over
the row, then the final `strcpy(dst, "<br>\n")`, which touches offsets
`dst .. dst+5` (five characters and the NUL).  Returns the highest byte
offset stored into `outmsg`. -/
def expand_arrows_and_blanks (cursorAt : Nat → Bool) (src : List Char) : Nat :=
  let r := expand_loop cursorAt src 0 0 0
  max r.2 (r.1 + 5)

lemma expand_width_le (b : Bool) (c : Char) : expand_width b c ≤ 8 := by
  unfold expand_width
  split_ifs <;> omega

lemma expand_touch_le (b : Bool) (c : Char) : expand_touch b c ≤ 8 := by
  unfold expand_touch
  split_ifs <;> omega

/-- the loop invariant: started within `MAXLINE - 15 + 8` bytes, the loop
stays within them. -/
lemma expand_loop_bound (cursorAt : Nat → Bool) :
    ∀ (src : List Char) (col dst high : Nat),
      dst ≤ MAXLINE - 15 + 7 → high ≤ MAXLINE - 15 + 7 →
      (expand_loop cursorAt src col dst high).1 ≤ MAXLINE - 15 + 7 ∧
      (expand_loop cursorAt src col dst high).2 ≤ MAXLINE - 15 + 7 := by
  intro src
  induction src with
  | nil => intro col dst high h1 h2; exact ⟨h1, h2⟩
  | cons c rest ih =>
      intro col dst high h1 h2
      simp only [expand_loop]
      by_cases hg : dst < MAXLINE - 15
      · rw [if_pos hg]
        have hw := expand_width_le (cursorAt col) c
        have ht := expand_touch_le (cursorAt col) c
        have hb : MAXLINE - 15 = 485 := by decide
        exact ih (col + 1) _ _ (by omega) (by omega)
      · rw [if_neg hg]
        exact ⟨h1, h2⟩

/-- Claim C10: `expand_arrows_and_blanks` never stores past the end of its
`MAXLINE` (500) byte output buffer: for every row content, every cursor
position and every cursor-blink state, the loop guard
`dst - outmsg < MAXLINE - 15`, the maximal per-character expansion and the
final 6-byte terminator keep every store offset below `MAXLINE`. -/
theorem C10_expand_in_bounds (cursorAt : Nat → Bool) (src : List Char) :
    expand_arrows_and_blanks cursorAt src < MAXLINE := by
  have hdef : expand_arrows_and_blanks cursorAt src =
      max (expand_loop cursorAt src 0 0 0).2
        ((expand_loop cursorAt src 0 0 0).1 + 5) := rfl
  have h := expand_loop_bound cursorAt src 0 0 0 (by decide) (by decide)
  have hb : MAXLINE - 15 = 485 := by decide
  have hm : MAXLINE = 500 := by decide
  rw [hdef]
  omega

/-! ## Claim C8: the remote-event POST handler
(webserver_esp.cpp lines 406-429) -/

/-- C `isspace` on the POST body characters. -/
def is_c_space (c : Char) : Bool :=
  c == ' ' || c == '\t' || c == '\n' || c.toNat == 11 || c.toNat == 12 || c == '\r'

/-- leading-whitespace skip performed by the `%d` conversion of `sscanf`. -/
def skip_spaces : List Char → List Char
  | [] => []
  | c :: r => if is_c_space c then skip_spaces r else c :: r

/-- maximal decimal-digit prefix accumulated by the `%d` conversion. -/
def read_digits (acc : Nat) : List Char → Nat
  | [] => acc
  | c :: r => if c.isDigit then read_digits (acc * 10 + (c.toNat - 48)) r else acc

/-- the `%d` conversion of `sscanf`: skip whitespace, optional sign, at least
one decimal digit; trailing characters are ignored. -/
def parse_decimal (l : List Char) : Option Int :=
  match skip_spaces l with
  | '+' :: r =>
      match r with
      | c :: _ => if c.isDigit then some (Int.ofNat (read_digits 0 r)) else none
      | [] => none
  | '-' :: r =>
      match r with
      | c :: _ => if c.isDigit then some (-(Int.ofNat (read_digits 0 r))) else none
      | [] => none
  | c :: r => if c.isDigit then some (Int.ofNat (read_digits 0 (c :: r))) else none
  | [] => none

/-- `sscanf(postdata, "button=%d", &button) == 1` with the converted value:
the literal characters must match exactly, then `%d` converts. -/
def sscanf_button (data : List Char) : Option Int :=
  if data.take 7 = ['b', 'u', 't', 't', 'o', 'n', '='] then
    parse_decimal (data.drop 7)
  else none

/-- the POST body as the handler sees it: `httpd_req_recv` reads at most
`sizeof(postdata) - 1 = 24` bytes. -/
def post_take (body : String) : List Char := body.toList.take 24

/-- `button_POST_handler` (webserver_esp.cpp lines 406-429) viewed as a state
transformer on the received body characters: `pushed` is the
`button_webpushed` array; the second component is the argument of the
`temp_change` call, when one is made.  The handler sets
`button_webpushed[button]` when the `sscanf` of `button=%d` succeeds with
`0 <= button <= 7`; otherwise it compares the body with `temp=up` and
`temp=down`; otherwise it only logs. -/
def button_POST_core (pushed : List Bool) (data : List Char) :
    List Bool × Option Int :=
  match sscanf_button data with
  | some b =>
      if 0 ≤ b ∧ b ≤ 7 then (pushed.set b.toNat true, none)
      else if data = ("temp=up").toList then (pushed, some 1)
      else if data = ("temp=down").toList then (pushed, some (-1))
      else (pushed, none)
  | none =>
      if data = ("temp=up").toList then (pushed, some 1)
      else if data = ("temp=down").toList then (pushed, some (-1))
      else (pushed, none)

/-- `button_POST_handler` on the POST body string. -/
def button_POST_handler (pushed : List Bool) (body : String) :
    List Bool × Option Int :=
  button_POST_core pushed (post_take body)

lemma getD_set_self (l : List Bool) (i : Nat) (h : i < l.length) :
    (l.set i true).getD i false = true := by
  induction l generalizing i with
  | nil => simp at h
  | cons a r ih =>
      cases i with
      | zero => rfl
      | succ i =>
          have := ih i (by simpa using h)
          simpa [List.getD] using this

lemma getD_set_other (l : List Bool) (i j : Nat) (h : i ≠ j) :
    (l.set i true).getD j false = l.getD j false := by
  induction l generalizing i j with
  | nil => rfl
  | cons a r ih =>
      cases i with
      | zero =>
          cases j with
          | zero => exact absurd rfl h
          | succ j => rfl
      | succ i =>
          cases j with
          | zero => rfl
          | succ j =>
              have := ih i j (by omega)
              simpa [List.getD] using this

/-- a successful `button=%d` parse pins the start of the body, so the body is
not one of the `temp` commands. -/
lemma sscanf_button_ne_temp {data : List Char} {b : Int}
    (h : sscanf_button data = some b) :
    data ≠ ("temp=up").toList ∧ data ≠ ("temp=down").toList := by
  constructor
  · intro hd
    rw [hd] at h
    have hn : sscanf_button (("temp=up").toList) = none := by decide
    rw [hn] at h
    exact Option.noConfusion h
  · intro hd
    rw [hd] at h
    have hn : sscanf_button (("temp=down").toList) = none := by decide
    rw [hn] at h
    exact Option.noConfusion h

lemma button_POST_core_spec (pushed : List Bool) (data : List Char)
    (hlen : pushed.length = 8) :
    (∀ b : Nat, b < 8 →
      ((button_POST_core pushed data).1.getD b false = true ↔
        (pushed.getD b false = true ∨ sscanf_button data = some (b : Int)))) ∧
    ((button_POST_core pushed data).2 = some 1 ↔ data = ("temp=up").toList) ∧
    ((button_POST_core pushed data).2 = some (-1) ↔
      data = ("temp=down").toList) ∧
    ((¬ (∃ b : Int, sscanf_button data = some b ∧ 0 ≤ b ∧ b ≤ 7) ∧
        data ≠ ("temp=up").toList ∧ data ≠ ("temp=down").toList) →
      button_POST_core pushed data = (pushed, none)) := by
  rcases hparse : sscanf_button data with _ | b0
  · have hcore : button_POST_core pushed data =
        (if data = ("temp=up").toList then (pushed, some 1)
         else if data = ("temp=down").toList then (pushed, some (-1))
         else (pushed, none)) := by
      simp only [button_POST_core, hparse]
    rw [hcore]
    by_cases hup : data = ("temp=up").toList
    · rw [if_pos hup]
      refine ⟨?_, ?_, ?_, ?_⟩
      · intro b _
        simp
      · simp [hup]
      · exact iff_of_false
          (fun h => absurd (show some (1 : Int) = some (-1) from h) (by decide))
          (fun h => absurd (hup.symm.trans h) (by decide))
      · intro hcon
        exact absurd hup hcon.2.1
    · rw [if_neg hup]
      by_cases hdown : data = ("temp=down").toList
      · rw [if_pos hdown]
        refine ⟨?_, ?_, ?_, ?_⟩
        · intro b _
          simp
        · exact iff_of_false
            (fun h => absurd (show some (-1 : Int) = some 1 from h) (by decide))
            (fun h => hup h)
        · simp [hdown]
        · intro hcon
          exact absurd hdown hcon.2.2
      · rw [if_neg hdown]
        refine ⟨?_, ?_, ?_, ?_⟩
        · intro b _
          simp
        · exact iff_of_false
            (fun h => Option.noConfusion (show (none : Option Int) = some 1 from h))
            (fun h => hup h)
        · exact iff_of_false
            (fun h => Option.noConfusion (show (none : Option Int) = some (-1) from h))
            (fun h => hdown h)
        · intro _
          rfl
  · obtain ⟨hnu, hnd⟩ := sscanf_button_ne_temp hparse
    have hcore : button_POST_core pushed data =
        (if 0 ≤ b0 ∧ b0 ≤ 7 then (pushed.set b0.toNat true, none)
         else if data = ("temp=up").toList then (pushed, some 1)
         else if data = ("temp=down").toList then (pushed, some (-1))
         else (pushed, none)) := by
      simp only [button_POST_core, hparse]
    rw [hcore]
    by_cases hrange : 0 ≤ b0 ∧ b0 ≤ 7
    · rw [if_pos hrange]
      refine ⟨?_, ?_, ?_, ?_⟩
      · intro b hb
        by_cases heq : b = b0.toNat
        · subst heq
          have hlt : b0.toNat < pushed.length := by rw [hlen]; omega
          have hcast : ((b0.toNat : Nat) : Int) = b0 :=
            Int.toNat_of_nonneg hrange.1
          constructor
          · intro _
            exact Or.inr (by rw [hcast])
          · intro _
            exact getD_set_self pushed b0.toNat hlt
        · have hother := getD_set_other pushed b0.toNat b
            (fun hc => heq hc.symm)
          rw [show ((pushed.set b0.toNat true, (none : Option Int)).1 : List Bool)
              = pushed.set b0.toNat true from rfl, hother]
          constructor
          · intro hp
            exact Or.inl hp
          · rintro (hp | hsome)
            · exact hp
            · exfalso
              injection hsome with hc
              apply heq
              omega
      · exact iff_of_false
          (fun h => Option.noConfusion (show (none : Option Int) = some 1 from h))
          (fun h => hnu h)
      · exact iff_of_false
          (fun h => Option.noConfusion (show (none : Option Int) = some (-1) from h))
          (fun h => hnd h)
      · intro hcon
        exact absurd ⟨b0, rfl, hrange⟩ hcon.1
    · rw [if_neg hrange, if_neg hnu, if_neg hnd]
      refine ⟨?_, ?_, ?_, ?_⟩
      · intro b hb
        constructor
        · intro hp
          exact Or.inl hp
        · rintro (hp | hsome)
          · exact hp
          · exfalso
            injection hsome with hc
            apply hrange
            constructor <;> omega
      · exact iff_of_false
          (fun h => Option.noConfusion (show (none : Option Int) = some 1 from h))
          (fun h => hnu h)
      · exact iff_of_false
          (fun h => Option.noConfusion (show (none : Option Int) = some (-1) from h))
          (fun h => hnd h)
      · intro _
        rfl

/-- Claim C8: the remote-event POST handler mirrors exactly the 8 button ids
and the two temperature-adjust commands: `button_webpushed[b]` is set exactly
when the body's `sscanf` against `button=%d` yields `b` with `0 <= b <= 7`;
`temp_change(+1)` is called exactly when the body is `temp=up` and
`temp_change(-1)` exactly when it is `temp=down`; any other body (including
out-of-range button numbers) leaves the whole state unchanged and is only
logged. -/
theorem C8_post_handler (pushed : List Bool) (body : String)
    (hlen : pushed.length = 8) :
    (∀ b : Nat, b < 8 →
      ((button_POST_handler pushed body).1.getD b false = true ↔
        (pushed.getD b false = true ∨
          sscanf_button (post_take body) = some (b : Int)))) ∧
    ((button_POST_handler pushed body).2 = some 1 ↔
      post_take body = ("temp=up").toList) ∧
    ((button_POST_handler pushed body).2 = some (-1) ↔
      post_take body = ("temp=down").toList) ∧
    ((¬ (∃ b : Int, sscanf_button (post_take body) = some b ∧ 0 ≤ b ∧ b ≤ 7) ∧
        post_take body ≠ ("temp=up").toList ∧
        post_take body ≠ ("temp=down").toList) →
      button_POST_handler pushed body = (pushed, none)) :=
  button_POST_core_spec pushed (post_take body) hlen

/-- the all-clear `button_webpushed` array. -/
def pushed_none : List Bool :=
  [false, false, false, false, false, false, false, false]

/-- witness for C8: the body `button=3` sets exactly `button_webpushed[3]`. -/
theorem C8_post_handler_witness :
    pushed_none.length = 8 ∧ (3 : Nat) < 8 ∧
    ((button_POST_handler pushed_none "button=3").1.getD 3 false = true ↔
      (pushed_none.getD 3 false = true ∨
        sscanf_button (post_take "button=3") = some ((3 : Nat) : Int))) :=
  ⟨rfl, by decide, (C8_post_handler pushed_none "button=3" rfl).1 3 (by decide)⟩

/-! ## Claim C9: the visitor table
(webserver_esp.cpp lines 80, 102-133) -/

/-- maximum visitors we keep track of (webserver_esp.cpp line 80). -/
def MAX_IP_ADDRESSES : Nat := 50

/-- `INT_MAX` of the 32-bit target. -/
def INT_MAX : Int := 2147483647

/-- Maxim DS1307 format (controller_03.h lines 10-12). -/
structure datetime where
  sec : Nat
  min : Nat
  hour : Nat
  ampm : Nat
  day : Nat
  date : Nat
  month : Nat
  year : Nat
deriving DecidableEq, Repr

/-- history of the clients whose web browsers made requests
(webserver_esp.cpp `struct client_t`). -/
structure client_t where
  ip_address : Nat
  count : Int
  first_time : datetime
  recent_time : datetime
  gave_password : Bool
deriving DecidableEq, Repr

/-- outcome of the scan loop of `remember_ip_address`: either the index of the
entry whose address matched, or the final `empty_ndx` / `min_ndx`
accumulators (`none` standing for the C value `-1`). -/
inductive scan_result_t where
  | found (ndx : Nat)
  | full_scan (empty_ndx : Option Nat) (min_ndx : Option Nat)
deriving DecidableEq, Repr

/-- the scan loop of `remember_ip_address` (webserver_esp.cpp lines 120-127):
returns on the first address match, remembers the last empty slot and the
first slot strictly improving the running minimum count (seeded with
`INT_MAX`). -/
def remember_scan (addr : Nat) :
    List client_t → Nat → Option Nat → Option Nat → Int → scan_result_t
  | [], _, e, m, _ => .full_scan e m
  | c :: rest, ndx, e, m, mc =>
      if c.ip_address = addr then .found ndx
      else if c.count = 0 then remember_scan addr rest (ndx + 1) (some ndx) m mc
      else if c.count < mc then
        remember_scan addr rest (ndx + 1) e (some ndx) c.count
      else remember_scan addr rest (ndx + 1) e m mc

/-- the entry created for a new address (webserver_esp.cpp lines 129-132). -/
def fresh_client (addr : Nat) (now : datetime) : client_t :=
  { ip_address := addr, count := 1, first_time := now, recent_time := now,
    gave_password := false }

/-- `remember_ip_address` (webserver_esp.cpp lines 118-133): on a match, bump
that entry's count and recent time; otherwise overwrite the last empty slot,
or, if none, the minimum-count slot.  `none` models the out-of-bounds write
the C code would perform with `min_ndx == -1`. -/
def remember_ip_address (clients : List client_t) (addr : Nat)
    (now : datetime) : Option (List client_t) :=
  match remember_scan addr clients 0 none none INT_MAX with
  | .found i =>
      match clients[i]? with
      | some c =>
          some (clients.set i { c with count := c.count + 1, recent_time := now })
      | none => none
  | .full_scan e m =>
      match (match e with | some j => some j | none => m) with
      | some j => some (clients.set j (fresh_client addr now))
      | none => none

/-- the `empty_ndx` accumulation of the scan, in isolation. -/
def scan_empty : List client_t → Nat → Option Nat → Option Nat
  | [], _, e => e
  | c :: rest, base, e =>
      if c.count = 0 then scan_empty rest (base + 1) (some base)
      else scan_empty rest (base + 1) e

/-- the `(min_ndx, min_count)` accumulation of the scan, in isolation. -/
def scan_min : List client_t → Nat → Option Nat → Int → Option Nat × Int
  | [], _, m, mc => (m, mc)
  | c :: rest, base, m, mc =>
      if c.count = 0 then scan_min rest (base + 1) m mc
      else if c.count < mc then scan_min rest (base + 1) (some base) c.count
      else scan_min rest (base + 1) m mc

/-- when the address appears in the table, the scan returns the first index
holding it. -/
lemma remember_scan_found (addr : Nat) :
    ∀ (l : List client_t) (base : Nat) (e m : Option Nat) (mc : Int)
      (i : Nat) (c : client_t),
      l[i]? = some c → c.ip_address = addr →
      (∀ k ck, k < i → l[k]? = some ck → ck.ip_address ≠ addr) →
      remember_scan addr l base e m mc = .found (base + i) := by
  intro l
  induction l with
  | nil =>
      intro base e m mc i c hget _ _
      simp at hget
  | cons hd tl ih =>
      intro base e m mc i c hget hip hfirst
      cases i with
      | zero =>
          simp only [List.getElem?_cons_zero, Option.some_inj] at hget
          subst hget
          simp only [remember_scan, if_pos hip, Nat.add_zero]
      | succ i =>
          have hhd : hd.ip_address ≠ addr :=
            hfirst 0 hd (Nat.succ_pos i) (by simp)
          have htl_get : tl[i]? = some c := by simpa using hget
          have htl_first : ∀ k ck, k < i → tl[k]? = some ck →
              ck.ip_address ≠ addr :=
            fun k ck hk hg => hfirst (k + 1) ck (by omega) (by simpa using hg)
          have harith : base + 1 + i = base + (i + 1) := by omega
          simp only [remember_scan, if_neg hhd]
          by_cases h0 : hd.count = 0
          · rw [if_pos h0,
              ih (base + 1) (some base) m mc i c htl_get hip htl_first, harith]
          · rw [if_neg h0]
            by_cases hlt : hd.count < mc
            · rw [if_pos hlt,
                ih (base + 1) e (some base) hd.count i c htl_get hip htl_first,
                harith]
            · rw [if_neg hlt,
                ih (base + 1) e m mc i c htl_get hip htl_first, harith]

/-- when the address is absent, the scan returns the isolated accumulator
results. -/
lemma remember_scan_nomatch (addr : Nat) :
    ∀ (l : List client_t) (base : Nat) (e m : Option Nat) (mc : Int),
      (∀ c ∈ l, c.ip_address ≠ addr) →
      remember_scan addr l base e m mc =
        .full_scan (scan_empty l base e) (scan_min l base m mc).1 := by
  intro l
  induction l with
  | nil => intro base e m mc _; rfl
  | cons hd tl ih =>
      intro base e m mc hno
      have hhd : hd.ip_address ≠ addr := hno hd (List.mem_cons_self hd tl)
      have htl : ∀ c ∈ tl, c.ip_address ≠ addr :=
        fun c hc => hno c (List.mem_cons_of_mem hd hc)
      simp only [remember_scan, scan_empty, scan_min, if_neg hhd]
      by_cases h0 : hd.count = 0
      · rw [if_pos h0, if_pos h0, if_pos h0, ih _ _ _ _ htl]
      · rw [if_neg h0, if_neg h0, if_neg h0]
        by_cases hlt : hd.count < mc
        · rw [if_pos hlt, if_pos hlt, ih _ _ _ _ htl]
        · rw [if_neg hlt, if_neg hlt, ih _ _ _ _ htl]

/-- a converse: a `found` result points at a matching entry preceded by no
other match. -/
lemma remember_scan_found_inv (addr : Nat) :
    ∀ (l : List client_t) (base : Nat) (e m : Option Nat) (mc : Int) (i : Nat),
      remember_scan addr l base e m mc = .found i →
      base ≤ i ∧ ∃ c, l[i - base]? = some c ∧ c.ip_address = addr ∧
        (∀ k ck, k < i - base → l[k]? = some ck → ck.ip_address ≠ addr) := by
  intro l
  induction l with
  | nil =>
      intro base e m mc i h
      exact absurd h (by simp [remember_scan])
  | cons hd tl ih =>
      intro base e m mc i h
      simp only [remember_scan] at h
      by_cases hip : hd.ip_address = addr
      · rw [if_pos hip] at h
        injection h with hbase
        subst hbase
        refine ⟨le_refl base, hd, ?_, hip, ?_⟩
        · simp
        · intro k ck hk _
          omega
      · rw [if_neg hip] at h
        have hstep : ∀ e' m' mc',
            remember_scan addr tl (base + 1) e' m' mc' = .found i →
            base ≤ i ∧ ∃ c, (hd :: tl)[i - base]? = some c ∧
              c.ip_address = addr ∧
              (∀ k ck, k < i - base → (hd :: tl)[k]? = some ck →
                ck.ip_address ≠ addr) := by
          intro e' m' mc' hrec
          obtain ⟨hle, c, hget, hcip, hfirst⟩ := ih (base + 1) e' m' mc' i hrec
          refine ⟨by omega, c, ?_, hcip, ?_⟩
          · have harith : i - base = (i - (base + 1)) + 1 := by omega
            rw [harith]
            simpa using hget
          · intro k ck hk hg
            cases k with
            | zero =>
                simp only [List.getElem?_cons_zero, Option.some_inj] at hg
                subst hg
                exact hip
            | succ k =>
                exact hfirst k ck (by omega) (by simpa using hg)
        by_cases h0 : hd.count = 0
        · rw [if_pos h0] at h
          exact hstep _ _ _ h
        · rw [if_neg h0] at h
          by_cases hlt : hd.count < mc
          · rw [if_pos hlt] at h
            exact hstep _ _ _ h
          · rw [if_neg hlt] at h
            exact hstep _ _ _ h

/-- a converse: a `full_scan` result means no entry holds the address. -/
lemma remember_scan_full_inv (addr : Nat) :
    ∀ (l : List client_t) (base : Nat) (e m : Option Nat) (mc : Int)
      (E M : Option Nat),
      remember_scan addr l base e m mc = .full_scan E M →
      ∀ c ∈ l, c.ip_address ≠ addr := by
  intro l
  induction l with
  | nil => intro base e m mc E M _ c hc; simp at hc
  | cons hd tl ih =>
      intro base e m mc E M h c hc
      simp only [remember_scan] at h
      by_cases hip : hd.ip_address = addr
      · rw [if_pos hip] at h
        exact absurd h (by simp)
      · rw [if_neg hip] at h
        rcases List.mem_cons.mp hc with hchd | hctl
        · subst hchd; exact hip
        · by_cases h0 : hd.count = 0
          · rw [if_pos h0] at h
            exact ih _ _ _ _ _ _ h c hctl
          · rw [if_neg h0] at h
            by_cases hlt : hd.count < mc
            · rw [if_pos hlt] at h
              exact ih _ _ _ _ _ _ h c hctl
            · rw [if_neg hlt] at h
              exact ih _ _ _ _ _ _ h c hctl

/-- with no empty slot, the `empty_ndx` accumulator is left alone. -/
lemma scan_empty_none :
    ∀ (l : List client_t) (base : Nat) (e : Option Nat),
      (∀ c ∈ l, c.count ≠ 0) → scan_empty l base e = e := by
  intro l
  induction l with
  | nil => intro base e _; rfl
  | cons hd tl ih =>
      intro base e h
      have h0 : hd.count ≠ 0 := h hd (List.mem_cons_self hd tl)
      simp only [scan_empty, if_neg h0]
      exact ih (base + 1) e (fun c hc => h c (List.mem_cons_of_mem hd hc))

/-- with an empty slot present, the scan finds one. -/
lemma scan_empty_exists :
    ∀ (l : List client_t) (base : Nat) (e : Option Nat),
      (∃ c ∈ l, c.count = 0) → ∃ J, scan_empty l base e = some J := by
  intro l
  induction l with
  | nil =>
      intro base e h
      obtain ⟨c, hc, _⟩ := h
      simp at hc
  | cons hd tl ih =>
      intro base e h
      by_cases h0 : hd.count = 0
      · simp only [scan_empty, if_pos h0]
        by_cases hex : ∃ c ∈ tl, c.count = 0
        · exact ih (base + 1) (some base) hex
        · have hall : ∀ c ∈ tl, c.count ≠ 0 := by
            intro c hc
            exact fun hz => hex ⟨c, hc, hz⟩
          rw [scan_empty_none tl (base + 1) (some base) hall]
          exact ⟨base, rfl⟩
      · simp only [scan_empty, if_neg h0]
        obtain ⟨c, hc, hz⟩ := h
        rcases List.mem_cons.mp hc with hchd | hctl
        · subst hchd; exact absurd hz h0
        · exact ih (base + 1) e ⟨c, hctl, hz⟩

/-- a found `empty_ndx` either came in through the accumulator or points at an
empty slot of the list. -/
lemma scan_empty_some :
    ∀ (l : List client_t) (base : Nat) (e : Option Nat) (J : Nat),
      scan_empty l base e = some J →
      e = some J ∨ ∃ j cj, J = base + j ∧ l[j]? = some cj ∧ cj.count = 0 := by
  intro l
  induction l with
  | nil => intro base e J h; exact Or.inl h
  | cons hd tl ih =>
      intro base e J h
      by_cases h0 : hd.count = 0
      · simp only [scan_empty, if_pos h0] at h
        rcases ih (base + 1) (some base) J h with hacc | ⟨j, cj, hJ, hg, hz⟩
        · injection hacc with hacc
          exact Or.inr ⟨0, hd, by omega, by simp, h0⟩
        · exact Or.inr ⟨j + 1, cj, by omega, by simpa using hg, hz⟩
      · simp only [scan_empty, if_neg h0] at h
        rcases ih (base + 1) e J h with hacc | ⟨j, cj, hJ, hg, hz⟩
        · exact Or.inl hacc
        · exact Or.inr ⟨j + 1, cj, by omega, by simpa using hg, hz⟩

/-- the final running minimum undercounts the accumulator and every non-empty
count of the list. -/
lemma scan_min_le :
    ∀ (l : List client_t) (base : Nat) (m : Option Nat) (mc : Int),
      (∀ c ∈ l, c.count ≠ 0) →
      (scan_min l base m mc).2 ≤ mc ∧
      ∀ c ∈ l, (scan_min l base m mc).2 ≤ c.count := by
  intro l
  induction l with
  | nil =>
      intro base m mc _
      exact ⟨le_refl mc, fun c hc => absurd hc (by simp)⟩
  | cons hd tl ih =>
      intro base m mc h
      have h0 : hd.count ≠ 0 := h hd (List.mem_cons_self hd tl)
      have htl : ∀ c ∈ tl, c.count ≠ 0 :=
        fun c hc => h c (List.mem_cons_of_mem hd hc)
      simp only [scan_min, if_neg h0]
      by_cases hlt : hd.count < mc
      · rw [if_pos hlt]
        obtain ⟨hle, hall⟩ := ih (base + 1) (some base) hd.count htl
        refine ⟨le_trans hle (le_of_lt hlt), ?_⟩
        intro c hc
        rcases List.mem_cons.mp hc with hchd | hctl
        · subst hchd; exact hle
        · exact hall c hctl
      · rw [if_neg hlt]
        obtain ⟨hle, hall⟩ := ih (base + 1) m mc htl
        refine ⟨hle, ?_⟩
        intro c hc
        rcases List.mem_cons.mp hc with hchd | hctl
        · subst hchd; exact le_trans hle (by omega)
        · exact hall c hctl

/-- the running minimum is attained: either nothing improved the accumulator,
or the reported slot holds the reported minimum count. -/
lemma scan_min_attain :
    ∀ (l : List client_t) (base : Nat) (m : Option Nat) (mc : Int),
      scan_min l base m mc = (m, mc) ∨
      ∃ j cj, (scan_min l base m mc).1 = some (base + j) ∧
        l[j]? = some cj ∧ cj.count = (scan_min l base m mc).2 := by
  intro l
  induction l with
  | nil => intro base m mc; exact Or.inl rfl
  | cons hd tl ih =>
      intro base m mc
      by_cases h0 : hd.count = 0
      · simp only [scan_min, if_pos h0]
        rcases ih (base + 1) m mc with hacc | ⟨j, cj, hm, hg, hc⟩
        · exact Or.inl hacc
        · exact Or.inr ⟨j + 1, cj, by rw [hm]; congr 1; omega,
            by simpa using hg, hc⟩
      · simp only [scan_min, if_neg h0]
        by_cases hlt : hd.count < mc
        · rw [if_pos hlt]
          rcases ih (base + 1) (some base) hd.count with hacc | ⟨j, cj, hm, hg, hc⟩
          · refine Or.inr ⟨0, hd, ?_, by simp, ?_⟩
            · rw [hacc]; simp
            · rw [hacc]
          · exact Or.inr ⟨j + 1, cj, by rw [hm]; congr 1; omega,
              by simpa using hg, hc⟩
        · rw [if_neg hlt]
          rcases ih (base + 1) m mc with hacc | ⟨j, cj, hm, hg, hc⟩
          · exact Or.inl hacc
          · exact Or.inr ⟨j + 1, cj, by rw [hm]; congr 1; omega,
              by simpa using hg, hc⟩

/-- once the `min_ndx` accumulator holds a slot, it keeps holding one. -/
lemma scan_min_pres :
    ∀ (l : List client_t) (base x : Nat) (mc : Int),
      ∃ y, (scan_min l base (some x) mc).1 = some y := by
  intro l
  induction l with
  | nil => intro base x mc; exact ⟨x, rfl⟩
  | cons hd tl ih =>
      intro base x mc
      simp only [scan_min]
      by_cases h0 : hd.count = 0
      · rw [if_pos h0]; exact ih (base + 1) x mc
      · rw [if_neg h0]
        by_cases hlt : hd.count < mc
        · rw [if_pos hlt]; exact ih (base + 1) base hd.count
        · rw [if_neg hlt]; exact ih (base + 1) x mc

/-- a non-empty count strictly below the seed forces the scan to report a
slot. -/
lemma scan_min_hit :
    ∀ (l : List client_t) (base : Nat) (m : Option Nat) (mc : Int),
      (∃ c ∈ l, c.count ≠ 0 ∧ c.count < mc) →
      ∃ y, (scan_min l base m mc).1 = some y := by
  intro l
  induction l with
  | nil =>
      intro base m mc h
      obtain ⟨c, hc, _⟩ := h
      simp at hc
  | cons hd tl ih =>
      intro base m mc h
      simp only [scan_min]
      by_cases h0 : hd.count = 0
      · rw [if_pos h0]
        obtain ⟨c, hc, hnz, hcl⟩ := h
        rcases List.mem_cons.mp hc with hchd | hctl
        · subst hchd; exact absurd h0 hnz
        · exact ih (base + 1) m mc ⟨c, hctl, hnz, hcl⟩
      · rw [if_neg h0]
        by_cases hlt : hd.count < mc
        · rw [if_pos hlt]; exact scan_min_pres tl (base + 1) base hd.count
        · rw [if_neg hlt]
          obtain ⟨c, hc, hnz, hcl⟩ := h
          rcases List.mem_cons.mp hc with hchd | hctl
          · subst hchd; exact absurd hcl hlt
          · exact ih (base + 1) m mc ⟨c, hctl, hnz, hcl⟩

/-- the visitor-table uniqueness invariant: whenever two slots hold the same
address, the later slot is unused (`count == 0`).  In particular all active
slots hold pairwise distinct addresses. -/
def dup_free (l : List client_t) : Prop :=
  ∀ (i j : Nat) (ci cj : client_t), i < j → l[i]? = some ci → l[j]? = some cj →
    ci.ip_address = cj.ip_address → cj.count = 0

/-- bumping the first slot holding an address preserves the uniqueness
invariant. -/
lemma dup_free_set_match {l : List client_t} (hdf : dup_free l) (i : Nat)
    (c : client_t) (now : datetime) (hget : l[i]? = some c)
    (hfirst : ∀ k ck, k < i → l[k]? = some ck →
      ck.ip_address ≠ c.ip_address) :
    dup_free (l.set i { c with count := c.count + 1, recent_time := now }) := by
  intro p q cp cq hpq hgp hgq hip
  have hilen : i < l.length := by
    by_contra hge
    rw [List.getElem?_eq_none (by omega)] at hget
    exact Option.noConfusion hget
  by_cases hq : q = i
  · rw [hq] at hgq hpq
    rw [List.getElem?_set_self hilen] at hgq
    injection hgq with hgq
    have hpne : i ≠ p := by omega
    rw [List.getElem?_set_ne hpne] at hgp
    exfalso
    apply hfirst p cp hpq hgp
    rw [hip, ← hgq]
  · rw [List.getElem?_set_ne (fun hc => hq hc.symm)] at hgq
    by_cases hp : p = i
    · rw [hp] at hgp hpq
      rw [List.getElem?_set_self hilen] at hgp
      injection hgp with hgp
      have hcip : c.ip_address = cq.ip_address := by
        rw [← hip, ← hgp]
      exact hdf i q c cq hpq hget hgq hcip
    · rw [List.getElem?_set_ne (fun hc => hp hc.symm)] at hgp
      exact hdf p q cp cq hpq hgp hgq hip

/-- overwriting any slot with an address absent from the table preserves the
uniqueness invariant. -/
lemma dup_free_set_fresh {l : List client_t} (hdf : dup_free l) (j addr : Nat)
    (now : datetime) (hno : ∀ c ∈ l, c.ip_address ≠ addr) :
    dup_free (l.set j (fresh_client addr now)) := by
  intro p q cp cq hpq hgp hgq hip
  by_cases hjlen : j < l.length
  · by_cases hq : q = j
    · rw [hq] at hgq hpq
      rw [List.getElem?_set_self hjlen] at hgq
      injection hgq with hgq
      have hpne : j ≠ p := by omega
      rw [List.getElem?_set_ne hpne] at hgp
      have hmem : cp ∈ l := List.getElem?_mem hgp
      exfalso
      apply hno cp hmem
      rw [hip, ← hgq]
      rfl
    · rw [List.getElem?_set_ne (fun hc => hq hc.symm)] at hgq
      by_cases hp : p = j
      · rw [hp] at hgp
        rw [List.getElem?_set_self hjlen] at hgp
        injection hgp with hgp
        have hmem : cq ∈ l := List.getElem?_mem hgq
        exfalso
        apply hno cq hmem
        rw [← hip, ← hgp]
        rfl
      · rw [List.getElem?_set_ne (fun hc => hp hc.symm)] at hgp
        exact hdf p q cp cq hpq hgp hgq hip
  · rw [List.set_eq_of_length_le (by omega)] at hgp hgq
    exact hdf p q cp cq hpq hgp hgq hip

/-- any successful `remember_ip_address` either bumps the first slot holding
the address, or overwrites one slot with a fresh entry when the address is
absent. -/
lemma remember_result_shape (l : List client_t) (addr : Nat) (now : datetime)
    (l' : List client_t) (h : remember_ip_address l addr now = some l') :
    (∃ i c, l[i]? = some c ∧ c.ip_address = addr ∧
      (∀ k ck, k < i → l[k]? = some ck → ck.ip_address ≠ addr) ∧
      l' = l.set i { c with count := c.count + 1, recent_time := now }) ∨
    (∃ j, (∀ c ∈ l, c.ip_address ≠ addr) ∧
      l' = l.set j (fresh_client addr now)) := by
  rcases hscan : remember_scan addr l 0 none none INT_MAX with i | ⟨e, m⟩
  · obtain ⟨_, c, hget, hcip, hfirst⟩ :=
      remember_scan_found_inv addr l 0 none none INT_MAX i hscan
    rw [Nat.sub_zero] at hget hfirst
    simp only [remember_ip_address, hscan, hget] at h
    injection h with h
    exact Or.inl ⟨i, c, hget, hcip, hfirst, h.symm⟩
  · have hno := remember_scan_full_inv addr l 0 none none INT_MAX e m hscan
    simp only [remember_ip_address, hscan] at h
    rcases htgt : (match e with | some j => some j | none => m) with _ | j
    · simp only [htgt] at h
      exact Option.noConfusion h
    · simp only [htgt] at h
      injection h with h
      exact Or.inr ⟨j, hno, h.symm⟩

/-- Claim C9: the webserver's visitor table never exceeds
`MAX_IP_ADDRESSES` (50) entries and never comes to hold two used entries
with the same IP address.  `remember_ip_address` applied to an address
already present only bumps the first entry holding it (count incremented,
recent time refreshed, every other entry untouched); applied to a new
address with an empty slot (`count == 0`) available, it fills an empty slot;
applied to a new address with the table full, it overwrites an entry of
minimum count; and it always preserves the table length and the
address-uniqueness invariant. -/
theorem C9_visitor_table (l : List client_t) (addr : Nat) (now : datetime) :
    MAX_IP_ADDRESSES = 50 ∧
    (∀ l', remember_ip_address l addr now = some l' →
      l'.length = l.length) ∧
    (∀ i c, l[i]? = some c → c.ip_address = addr →
      (∀ k ck, k < i → l[k]? = some ck → ck.ip_address ≠ addr) →
      remember_ip_address l addr now =
        some (l.set i { c with count := c.count + 1, recent_time := now })) ∧
    ((∀ c ∈ l, c.ip_address ≠ addr) → (∃ c ∈ l, c.count = 0) →
      ∃ j cj, l[j]? = some cj ∧ cj.count = 0 ∧
        remember_ip_address l addr now =
          some (l.set j (fresh_client addr now))) ∧
    ((∀ c ∈ l, c.ip_address ≠ addr) → (∀ c ∈ l, c.count ≠ 0) →
      (∃ c ∈ l, c.count < INT_MAX) →
      ∃ j cj, l[j]? = some cj ∧ (∀ c ∈ l, cj.count ≤ c.count) ∧
        remember_ip_address l addr now =
          some (l.set j (fresh_client addr now))) ∧
    (dup_free l → ∀ l', remember_ip_address l addr now = some l' →
      dup_free l') := by
  refine ⟨rfl, ?_, ?_, ?_, ?_, ?_⟩
  · -- length preservation
    intro l' h
    rcases remember_result_shape l addr now l' h with
      ⟨i, c, _, _, _, hl'⟩ | ⟨j, _, hl'⟩ <;> rw [hl', List.length_set]
  · -- address already present: bump its first slot
    intro i c hget hip hfirst
    have hscan := remember_scan_found addr l 0 none none INT_MAX i c
      hget hip hfirst
    rw [Nat.zero_add] at hscan
    simp only [remember_ip_address, hscan, hget]
  · -- new address, an empty slot exists
    intro hno hempty
    have hscan := remember_scan_nomatch addr l 0 none none INT_MAX hno
    obtain ⟨J, hJ⟩ := scan_empty_exists l 0 none hempty
    rcases scan_empty_some l 0 none J hJ with hacc | ⟨j, cj, hJeq, hg, hz⟩
    · exact absurd hacc (by simp)
    · have hJj : J = j := by omega
      subst hJj
      refine ⟨J, cj, hg, hz, ?_⟩
      simp only [remember_ip_address, hscan, hJ]
  · -- new address, table full: overwrite a minimum-count slot
    intro hno hfull hlt
    have hscan := remember_scan_nomatch addr l 0 none none INT_MAX hno
    have hE : scan_empty l 0 none = none := scan_empty_none l 0 none hfull
    obtain ⟨c0, hc0, hc0lt⟩ := hlt
    obtain ⟨y, hy⟩ := scan_min_hit l 0 none INT_MAX
      ⟨c0, hc0, hfull c0 hc0, hc0lt⟩
    rcases scan_min_attain l 0 none INT_MAX with hacc | ⟨j, cj, hm, hg, hcnt⟩
    · rw [hacc] at hy
      exact Option.noConfusion hy
    · rw [Nat.zero_add] at hm
      have hle := (scan_min_le l 0 none INT_MAX hfull).2
      refine ⟨j, cj, hg, fun c hc => hcnt ▸ hle c hc, ?_⟩
      simp only [remember_ip_address, hscan, hE, hm]
  · -- uniqueness invariant preserved
    intro hdf l' h
    rcases remember_result_shape l addr now l' h with
      ⟨i, c, hget, hcip, hfirst, hl'⟩ | ⟨j, hno, hl'⟩
    · rw [hl']
      exact dup_free_set_match hdf i c now hget
        (fun k ck hk hgk => by rw [hcip]; exact hfirst k ck hk hgk)
    · rw [hl']
      exact dup_free_set_fresh hdf j addr now hno

/-- a concrete timestamp for the witness table. -/
def dt0 : datetime :=
  { sec := 0, min := 0, hour := 1, ampm := 0, day := 1, date := 1,
    month := 1, year := 22 }

def client_a : client_t :=
  { ip_address := 9, count := 2, first_time := dt0, recent_time := dt0,
    gave_password := false }

def client_b : client_t :=
  { ip_address := 5, count := 3, first_time := dt0, recent_time := dt0,
    gave_password := false }

def client_e : client_t :=
  { ip_address := 7, count := 0, first_time := dt0, recent_time := dt0,
    gave_password := false }

/-- a table with no empty slot. -/
def clients_full : List client_t := [client_a, client_b]

/-- a table with an empty slot. -/
def clients_gap : List client_t := [client_b, client_e]

/-- witness for C9: bumping a present address, filling an empty slot for a
new address, and overwriting the minimum-count slot when the table is full. -/
theorem C9_visitor_table_witness :
    remember_ip_address clients_full 9 dt0 =
      some (clients_full.set 0
        { client_a with count := client_a.count + 1, recent_time := dt0 }) ∧
    (∃ j cj, clients_gap[j]? = some cj ∧ cj.count = 0 ∧
      remember_ip_address clients_gap 9 dt0 =
        some (clients_gap.set j (fresh_client 9 dt0))) ∧
    (∃ j cj, clients_full[j]? = some cj ∧
      (∀ c ∈ clients_full, cj.count ≤ c.count) ∧
      remember_ip_address clients_full 11 dt0 =
        some (clients_full.set j (fresh_client 11 dt0))) := by
  refine ⟨?_, ?_, ?_⟩
  · exact (C9_visitor_table clients_full 9 dt0).2.2.1 0 client_a (by decide)
      (by decide) (fun k ck hk _ => absurd hk (Nat.not_lt_zero k))
  · exact (C9_visitor_table clients_gap 9 dt0).2.2.2.1 (by decide) (by decide)
  · exact (C9_visitor_table clients_full 11 dt0).2.2.2.2.1 (by decide)
      (by decide) (by decide)

end PoolSpa
